import Mathlib

/-!
Verification of the Logitech G29 report decode / diff / command-encode core.

The definitions in namespace `G29` are a shallow embedding of the
TypeScript source:
* `src/data-map.ts` — `updateState`, `compareState`, `reduceNumberFromTo`,
  `round`, `wheelDpad`, `wheelTurn`, `pedalToPercent`, `shifterGear`;
* the `LogitechG29` class — `leds`, `setRange`, `relayOS`, the constructor's
  range clamp, and the `listen` data handler's emit sequence.

JavaScript numbers are embedded as `ℚ` (the arithmetic performed by the
decoders is exact at the precision the code rounds to), byte values as `ℕ`,
the string-keyed state object as an insertion-ordered association list from
field keys to `ℚ`.
-/

attribute [local semireducible] Rat.mul Rat.inv Rat.add Rat.sub

namespace G29

/-- Field keys of the state object, one per string key used in
`data-map.ts` (e.g. `wheel_dpad` embeds the key `"wheel-dpad"`). -/
inductive Key where
  | wheel_dpad
  | wheel_button_x
  | wheel_button_square
  | wheel_button_circle
  | wheel_button_triangle
  | wheel_shift_right
  | wheel_shift_left
  | wheel_button_r2
  | wheel_button_l2
  | wheel_button_share
  | wheel_button_option
  | wheel_button_r3
  | wheel_button_l3
  | shifter_gear
  | wheel_button_plus
  | wheel_spinner
  | wheel_button_minus
  | wheel_button_spinner
  | wheel_button_playstation
  | wheel_turn
  | pedals_gas
  | pedals_brake
  | pedals_clutch
deriving DecidableEq, Repr

/-- The state / changes objects: insertion-ordered association lists,
embedding plain JavaScript objects `{ [key]: number }`. -/
abbrev State := List (Key × ℚ)

/-- Object property read: `obj[key]`, `none` when the key is absent
(JavaScript `undefined`). -/
def objGet : State → Key → Option ℚ
  | [], _ => none
  | (k', v') :: rest, k => if k' = k then some v' else objGet rest k

/-- Object property write `obj[key] = value`: updates an existing key in
place, appends a missing key (JavaScript insertion order). -/
def objSet : State → Key → ℚ → State
  | [], k, v => [(k, v)]
  | (k', v') :: rest, k, v =>
    if k' = k then (k', v) :: rest else (k', v') :: objSet rest k v

/-- `reduceNumberFromTo`'s while loop, fuel-indexed so that the recursion
is structural (`bound` embeds the source's `to` parameter, already doubled
here; `to` is reserved in Lean). Body: while `y > 1`: stop if `num < bound`;
subtract `y` when `num - y >= 0`; halve `y`. The fuel only runs out if the
loop would run more than `fuel` body iterations, which never happens from
`y = 128` with fuel 7 (proved below). -/
def reduceLoop : ℕ → ℕ → ℕ → ℕ → ℕ
  | fuel, num, bound, y =>
    if y ≤ 1 then num
    else if num < bound then num
    else
      match fuel with
      | 0 => num
      | f + 1 => reduceLoop f (if y ≤ num then num - y else num) bound (y / 2)

/-- Reduce a number by 128, 64, 32, etc... without going lower than a
second number (`data-map.ts` `reduceNumberFromTo`): `to` is doubled, then
the probe `y` starts at 128 and halves each iteration (7 iterations reach
`y = 1`, so fuel 7 is exact). -/
def reduceNumberFromTo (num bound : ℕ) : ℕ :=
  reduceLoop 7 num (bound * 2) 128

/-- Variant of `reduceLoop` returning `none` when more than `fuel`
loop-body executions would be needed; witnesses the iteration bound. -/
def reduceLoopFuel : ℕ → ℕ → ℕ → ℕ → Option ℕ
  | fuel, num, bound, y =>
    if y ≤ 1 then some num
    else if num < bound then some num
    else
      match fuel with
      | 0 => none
      | f + 1 => reduceLoopFuel f (if y ≤ num then num - y else num) bound (y / 2)

/-- `data-map.ts` `round`: `Math.round(num * 10^exp) / 10^exp`
(`Math.round` rounds half toward +∞, i.e. `⌊x + 1/2⌋`; `Rat.floor` is used
so the definition evaluates by kernel reduction). -/
def round (num : ℚ) (exp : ℕ) : ℚ :=
  ((Rat.floor (num * 10 ^ exp + 1 / 2) : ℤ) : ℚ) / 10 ^ exp

/-- `Math.min` on exact rationals. -/
def mathMin (a b : ℚ) : ℚ := if a ≤ b then a else b

/-- `Math.max` on exact rationals. -/
def mathMax (a b : ℚ) : ℚ := if b ≤ a then a else b

/-- `data-map.ts` `wheelDpad`: bitfield recovery with threshold 8, then the
fixed dpad lookup table. -/
def wheelDpad (value : ℕ) : ℕ :=
  match reduceNumberFromTo value 8 with
  | 8 => 0
  | 7 => 8
  | 6 => 7
  | 5 => 6
  | 4 => 5
  | 3 => 4
  | 2 => 3
  | 1 => 2
  | 0 => 1
  | _ => 0

/-- `data-map.ts` `wheelTurn`: fine part from byte 4, coarse part from
byte 5, rounded to 2 places and clamped to [0, 100]. -/
def wheelTurn (data : List ℕ) : ℚ :=
  let wheelFine : ℚ := ((data.getD 4 0 : ℕ) : ℚ) / 255 * (100 / 256)
  let wheelCourse : ℚ := ((data.getD 5 0 : ℕ) : ℚ) / 255 * (100 - 100 / 256)
  mathMin (mathMax (round (wheelCourse + wheelFine) 2) 0) 100

/-- `data-map.ts` `pedalToPercent`: `round(|num - 255| / 255, 2)`. -/
def pedalToPercent (num : ℕ) : ℚ :=
  round (|(num : ℚ) - 255| / 255) 2

/-- `data-map.ts` `shifterGear`: bitfield recovery with threshold 64, then
the fixed gear lookup table (64 ↦ reverse = -1). -/
def shifterGear (value : ℕ) : ℤ :=
  match reduceNumberFromTo value 64 with
  | 0 => 0
  | 1 => 1
  | 2 => 2
  | 4 => 3
  | 8 => 4
  | 16 => 5
  | 32 => 6
  | 64 => -1
  | _ => 0

/-- A truthy bit test `value & mask ? 1 : 0`. -/
def bit (value mask : ℕ) : ℚ :=
  if value &&& mask ≠ 0 then 1 else 0

/-- The (key, decoded value) pairs `updateState` passes to `compareState`
for one changed byte index; `[]` for indices with no semantic field. -/
def pairsForIndex (data : List ℕ) : ℕ → List (Key × ℚ)
  | 0 =>
    let v := data.getD 0 0
    [(.wheel_dpad, (wheelDpad v : ℕ)),
     (.wheel_button_x, bit v 16),
     (.wheel_button_square, bit v 32),
     (.wheel_button_circle, bit v 64),
     (.wheel_button_triangle, bit v 128)]
  | 1 =>
    let v := data.getD 1 0
    [(.wheel_shift_right, ((v &&& 1 : ℕ) : ℚ)),
     (.wheel_shift_left, bit v 2),
     (.wheel_button_r2, bit v 4),
     (.wheel_button_l2, bit v 8),
     (.wheel_button_share, bit v 16),
     (.wheel_button_option, bit v 32),
     (.wheel_button_r3, bit v 64),
     (.wheel_button_l3, bit v 128)]
  | 2 =>
    let v := data.getD 2 0
    [(.shifter_gear, (shifterGear v : ℤ)),
     (.wheel_button_plus, bit v 128)]
  | 3 =>
    let v := data.getD 3 0
    [(.wheel_spinner, if v &&& 2 ≠ 0 then 1 else if v &&& 4 ≠ 0 then -1 else 0),
     (.wheel_button_minus, ((v &&& 1 : ℕ) : ℚ)),
     (.wheel_button_spinner, bit v 8),
     (.wheel_button_playstation, bit v 16)]
  | 4 => [(.wheel_turn, wheelTurn data)]
  | 5 => [(.wheel_turn, wheelTurn data)]
  | 6 => [(.pedals_gas, pedalToPercent (data.getD 6 0))]
  | 7 => [(.pedals_brake, pedalToPercent (data.getD 7 0))]
  | 8 => [(.pedals_clutch, pedalToPercent (data.getD 8 0))]
  | 11 => [(.shifter_gear, (shifterGear (data.getD 2 0) : ℤ))]
  | _ => []

/-- `data-map.ts` `compareState`: for each (key, value) pair, when
`state[key] !== value` write the value into both the state and the changes
object (an absent key compares unequal to every number). -/
def compareState : List (Key × ℚ) → State → State → State × State
  | [], state, changes => (state, changes)
  | (k, v) :: rest, state, changes =>
    if objGet state k = some v then compareState rest state changes
    else compareState rest (objSet state k v) (objSet changes k v)

/-- One iteration of `updateState`'s loop: when `data[index] !== lastData[index]`,
run `compareState` on that index's decoded pairs. -/
def updateStep (data lastData : List ℕ) (acc : State × State) (index : ℕ) :
    State × State :=
  if data.getD index 0 ≠ lastData.getD index 0 then
    compareState (pairsForIndex data index) acc.1 acc.2
  else acc

/-- `data-map.ts` `updateState`: fold the per-index comparison over all
byte indices, starting from the current state and an empty changes object;
returns (mutated state, changes). -/
def updateState (data lastData : List ℕ) (state : State) : State × State :=
  (List.range data.length).foldl (updateStep data lastData) (state, [])

/-- Events emitted by the `listen` data handler. -/
inductive Emit where
  | field (k : Key) (v : ℚ)
  | changes (ch : State)
  | all (st : State)
  | data (d : List ℕ)
deriving DecidableEq, Repr

/-- The `listen` data handler: run `updateState`; when the changes object
is non-empty emit one event per changed key followed by `changes`; always
emit `all` (state snapshot) and `data` (raw report); store the report as
`lastData`. Returns (new state, new lastData, emitted events in order). -/
def listenStep (data lastData : List ℕ) (state : State) :
    State × List ℕ × List Emit :=
  let res := updateState data lastData state
  let emits :=
    (if 0 < res.2.length then
      res.2.map (fun p => Emit.field p.1 p.2) ++ [Emit.changes res.2]
    else []) ++ [Emit.all res.1, Emit.data data]
  (res.1, data, emits)

/-- `LogitechG29.relayOS`: prepend a zero byte when the platform requires
a report id (`prependWrite` is set on win32), then relay. -/
def relayOS (prependWrite : Bool) (data : List ℤ) : List ℤ :=
  if prependWrite then 0 :: data else data

/-- `LogitechG29.leds`: return unchanged (no frame) when the value equals
`lastLedValue`; otherwise clamp to [0, 31], relay
`[0xf8, 0x12, value, 0x00, 0x00, 0x00, 0x01]`, and store the clamped value.
Result: (new `lastLedValue`, frames written). -/
def leds (prependWrite : Bool) (lastLedValue value : ℤ) : ℤ × List (List ℤ) :=
  if lastLedValue = value then (lastLedValue, [])
  else
    let v := min (max value 0) 31
    (v, [relayOS prependWrite [0xf8, 0x12, v, 0x00, 0x00, 0x00, 0x01]])

/-- The constructor's range clamp: `Math.min(Math.max(options.range, 40), 900)`. -/
def clampedRange (range : ℤ) : ℤ :=
  min (max range 40) 900

/-- `LogitechG29.setRange` applied to an already-clamped stored range:
`range1 = range & 0x00ff`, `range2 = (range & 0xff00) >> 8`, frame
`[0xf8, 0x81, range1, range2, 0x00, 0x00, 0x00]`. -/
def setRange (range : ℕ) : List ℕ :=
  [0xf8, 0x81, range &&& 0x00ff, (range &&& 0xff00) >>> 8, 0x00, 0x00, 0x00]

/-- Constructor clamp followed by `setRange`: the frame written for a
requested range value. -/
def rangeCommand (range : ℤ) : List ℕ :=
  setRange (clampedRange range).toNat

/-- Formula from the spec, for comparison with `wheelTurn`:
`fine = (byte4/255) × (100/256)`; `coarse = (byte5/255) × (100 − 100/256)`;
`turn = clamp(round(coarse+fine, 2 decimals), 0, 100)`. -/
def specTurn (b4 b5 : ℕ) : ℚ :=
  let fine : ℚ := (b4 : ℚ) / 255 * (100 / 256)
  let coarse : ℚ := (b5 : ℚ) / 255 * (100 - 100 / 256)
  mathMin (mathMax (round (coarse + fine) 2) 0) 100

/-- Formula from the spec, for comparison with `pedalToPercent`:
`percent = round(|byte − 255| / 255, 2)`. -/
def specPedal (b : ℕ) : ℚ :=
  round (|(b : ℚ) - 255| / 255) 2

/-- Table from the spec, for comparison with `wheelDpad`'s lookup:
dpad code 8→0, 7→8, 6→7, 5→6, 4→5, 3→4, 2→3, 1→2, 0→1, anything else→0. -/
def specDpadTable (c : ℕ) : ℕ :=
  match c with
  | 8 => 0
  | 7 => 8
  | 6 => 7
  | 5 => 6
  | 4 => 5
  | 3 => 4
  | 2 => 3
  | 1 => 2
  | 0 => 1
  | _ => 0

/-- Table from the spec, for comparison with `shifterGear`'s lookup:
gear code 0→0, 1→1, 2→2, 4→3, 8→4, 16→5, 32→6, 64→−1, anything else→0. -/
def specGearTable (c : ℕ) : ℤ :=
  match c with
  | 0 => 0
  | 1 => 1
  | 2 => 2
  | 4 => 3
  | 8 => 4
  | 16 => 5
  | 32 => 6
  | 64 => -1
  | _ => 0

/-- Frame formula from the spec, for comparison with `rangeCommand`:
value clamped to 40–900, then `[0xf8, 0x81, low, high, 0, 0, 0]` with
`low = clamped & 0x00ff` and `high = (clamped & 0xff00) >> 8`. -/
def specRangeFrame (value : ℤ) : List ℕ :=
  let clamped := (min (max value 40) 900).toNat
  [0xf8, 0x81, clamped &&& 0x00ff, (clamped &&& 0xff00) >>> 8, 0, 0, 0]

/-- Documented range of each field (spec §3 invariants): dpad ∈ {0..8},
gear ∈ {−1,0,1,2,3,4,5,6}, turn ∈ [0,100], pedals ∈ [0,1],
spinner ∈ {−1,0,1}, every remaining (boolean) field ∈ {0,1}. -/
def fieldOK : Key → ℚ → Prop
  | .wheel_dpad, v => v ∈ ([0, 1, 2, 3, 4, 5, 6, 7, 8] : List ℚ)
  | .shifter_gear, v => v ∈ ([-1, 0, 1, 2, 3, 4, 5, 6] : List ℚ)
  | .wheel_turn, v => 0 ≤ v ∧ v ≤ 100
  | .pedals_gas, v => 0 ≤ v ∧ v ≤ 1
  | .pedals_brake, v => 0 ≤ v ∧ v ≤ 1
  | .pedals_clutch, v => 0 ≤ v ∧ v ≤ 1
  | .wheel_spinner, v => v ∈ ([-1, 0, 1] : List ℚ)
  | _, v => v ∈ ([0, 1] : List ℚ)

instance (k : Key) (v : ℚ) : Decidable (fieldOK k v) := by
  cases k <;> dsimp only [fieldOK] <;> infer_instance

end G29

/-! ## Helper lemmas -/

/-- When the fuel bounds the probe from above by `2 ^ fuel`, the fueled
loop never runs out and agrees with the total loop. -/
theorem reduceLoopFuel_eq_reduceLoop (fuel : ℕ) :
    ∀ num bound y, y ≤ 2 ^ fuel →
      G29.reduceLoopFuel fuel num bound y = some (G29.reduceLoop fuel num bound y) := by
  induction fuel with
  | zero =>
    intro num bound y hy
    rw [G29.reduceLoopFuel, G29.reduceLoop, if_pos (by omega : y ≤ 1),
      if_pos (by omega : y ≤ 1)]
  | succ f ih =>
    intro num bound y hy
    rw [G29.reduceLoopFuel, G29.reduceLoop]
    by_cases h1 : y ≤ 1
    · rw [if_pos h1, if_pos h1]
    · rw [if_neg h1, if_neg h1]
      by_cases h2 : num < bound
      · rw [if_pos h2, if_pos h2]
      · rw [if_neg h2, if_neg h2]
        apply ih
        have h2f : y ≤ 2 ^ f * 2 := by
          calc y ≤ 2 ^ (f + 1) := hy
          _ = 2 ^ f * 2 := by rw [pow_succ]
        omega

/-- `updateState` on a report identical to the previous one is the
identity: every per-index guard is false. -/
theorem updateState_self (data : List ℕ) (st : G29.State) :
    G29.updateState data data st = (st, []) := by
  unfold G29.updateState
  have step : ∀ (l : List ℕ) (acc : G29.State × G29.State),
      l.foldl (G29.updateStep data data) acc = acc := by
    intro l
    induction l with
    | nil => intro acc; rfl
    | cons i rest ih =>
      intro acc
      rw [List.foldl_cons]
      have : G29.updateStep data data acc i = acc := by
        unfold G29.updateStep
        rw [if_neg (by simp)]
      rw [this, ih acc]
  exact step _ _

/-! ## Claims -/

/-- C10: the bitfield-recovery loop is total and terminating: with the
probe starting at 128 and halving each iteration, at most 7 loop-body
executions happen before the probe reaches 1, and a result is always
returned, equal to `reduceNumberFromTo`'s. Hence dpad and gear decoding
(which call it with thresholds 8 and 64) terminate on every input byte. -/
theorem reduceNumberFromTo_terminates_in_seven (num bound : ℕ) :
    G29.reduceLoopFuel 7 num (bound * 2) 128 = some (G29.reduceNumberFromTo num bound) :=
  reduceLoopFuel_eq_reduceLoop 7 num (bound * 2) 128 (by norm_num)

/-- C2 counterexample: for byte4 = 0 and byte5 = 128 the decoder returns
exactly 50.00, which is not within 0.01 of the claimed 50.20. -/
theorem wheelTurn_mid_vector_not_50_20 :
    G29.wheelTurn [0, 0, 0, 0, 0, 128, 0, 0, 0, 0, 0, 0] = 50 ∧
    ¬ |G29.wheelTurn [0, 0, 0, 0, 0, 128, 0, 0, 0, 0, 0, 0] - 251 / 5| ≤ 1 / 100 := by
  decide

/-- C2 (amended): the turn decoder satisfies byte4=0,byte5=0 → 0.00 and
byte4=255,byte5=255 → 100.00; for byte4=0,byte5=128 it returns a value
within 0.01 of 50.00 (in fact exactly 50.00), not of 50.20. -/
theorem wheelTurn_test_vectors :
    G29.wheelTurn [0, 0, 0, 0, 0, 0, 0, 0, 0, 0, 0, 0] = 0 ∧
    G29.wheelTurn [0, 0, 0, 0, 255, 255, 0, 0, 0, 0, 0, 0] = 100 ∧
    |G29.wheelTurn [0, 0, 0, 0, 0, 128, 0, 0, 0, 0, 0, 0] - 50| ≤ 1 / 100 := by
  decide

/-- C3: bitfield recovery is invariant under superimposed flag bits above
the field's range: adding any sum of distinct bits from {16,32,64,128} to a
dpad code in 0..8 leaves the decoded dpad unchanged; adding 128 to any gear
code in {0,1,2,4,8,16,32,64} leaves the decoded gear unchanged; and the
buttonPlus bit test reads bit 128 independently of the low bits. -/
theorem bitfield_recovery_superimpose_invariant :
    (∀ c : Fin 9, ∀ b16 b32 b64 b128 : Bool,
      G29.wheelDpad (c.val + (if b16 then 16 else 0) + (if b32 then 32 else 0) +
        (if b64 then 64 else 0) + (if b128 then 128 else 0)) = G29.wheelDpad c.val) ∧
    (G29.shifterGear (0 + 128) = G29.shifterGear 0 ∧
     G29.shifterGear (1 + 128) = G29.shifterGear 1 ∧
     G29.shifterGear (2 + 128) = G29.shifterGear 2 ∧
     G29.shifterGear (4 + 128) = G29.shifterGear 4 ∧
     G29.shifterGear (8 + 128) = G29.shifterGear 8 ∧
     G29.shifterGear (16 + 128) = G29.shifterGear 16 ∧
     G29.shifterGear (32 + 128) = G29.shifterGear 32 ∧
     G29.shifterGear (64 + 128) = G29.shifterGear 64) ∧
    (∀ c : Fin 128, G29.bit (c.val + 128) 128 = 1 ∧ G29.bit c.val 128 = 0) := by
  decide

/-- C5: the recovered codes map to final values exactly by the spec's fixed
lookups (on bytes 0..15 the dpad recovery is the identity, on bytes 0..127
the gear recovery is the identity, so the lookup tables are exercised
directly, including the catch-all rows); in particular byte 0 → dpad 1,
byte 64 → gear −1, byte 32 → gear 6, byte 130 → gear 2 with buttonPlus 1. -/
theorem lookup_tables_exact :
    (∀ c : Fin 16, G29.wheelDpad c.val = G29.specDpadTable c.val) ∧
    (∀ c : Fin 128, G29.shifterGear c.val = G29.specGearTable c.val) ∧
    G29.wheelDpad 0 = 1 ∧
    G29.shifterGear 64 = -1 ∧
    G29.shifterGear 32 = 6 ∧
    (G29.shifterGear 130 = 2 ∧ G29.bit 130 128 = 1) := by
  decide

/-- C1 counterexample: the stricter "no dispatch at all" reading fails: on
a byte-for-byte identical consecutive report, the data handler still emits
the unconditional `all` and `data` events, so its emit list is non-empty. -/
theorem identical_report_still_emits :
    (G29.listenStep (List.replicate 12 0) (List.replicate 12 0) []).2.2 ≠ [] := by
  decide

/-- C1 (amended): processing a report byte-for-byte equal to the previous
one produces an empty changed-field set, leaves every stored field
unchanged, and triggers no per-field event and no `changes` event; the
unconditional `all` (state snapshot) and `data` (raw report) events still
fire. -/
theorem identical_report_idempotent (data : List ℕ) (st : G29.State) :
    G29.updateState data data st = (st, []) ∧
    (G29.listenStep data data st).2.2 = [G29.Emit.all st, G29.Emit.data data] := by
  refine ⟨updateState_self data st, ?_⟩
  unfold G29.listenStep
  rw [updateState_self data st]
  simp

/-- C6: each pedal decodes by the spec's inversion formula
`round(|byte − 255| / 255, 2)` (gas from index 6, brake from index 7,
clutch from index 8); starting from the fresh session state and an all-zero
previous report, the report `[0,0,0,0,0,0,128,255,255,0,0,0]` produces the
changed-field set exactly {gas: 0.50, brake: 0.00, clutch: 0.00}, and the
handler emits the per-field events, `changes`, then `all` with the full
snapshot and `data` with the raw array. -/
theorem pedal_decode_end_to_end :
    (∀ b : ℕ, G29.pedalToPercent b = G29.specPedal b) ∧
    (∀ data : List ℕ,
      G29.pairsForIndex data 6 = [(G29.Key.pedals_gas, G29.pedalToPercent (data.getD 6 0))] ∧
      G29.pairsForIndex data 7 = [(G29.Key.pedals_brake, G29.pedalToPercent (data.getD 7 0))] ∧
      G29.pairsForIndex data 8 = [(G29.Key.pedals_clutch, G29.pedalToPercent (data.getD 8 0))]) ∧
    G29.updateState [0, 0, 0, 0, 0, 0, 128, 255, 255, 0, 0, 0] (List.replicate 12 0) [] =
      ([(G29.Key.pedals_gas, 1 / 2), (G29.Key.pedals_brake, 0), (G29.Key.pedals_clutch, 0)],
       [(G29.Key.pedals_gas, 1 / 2), (G29.Key.pedals_brake, 0), (G29.Key.pedals_clutch, 0)]) ∧
    (G29.listenStep [0, 0, 0, 0, 0, 0, 128, 255, 255, 0, 0, 0] (List.replicate 12 0) []).2.2 =
      [G29.Emit.field G29.Key.pedals_gas (1 / 2),
       G29.Emit.field G29.Key.pedals_brake 0,
       G29.Emit.field G29.Key.pedals_clutch 0,
       G29.Emit.changes [(G29.Key.pedals_gas, 1 / 2), (G29.Key.pedals_brake, 0),
         (G29.Key.pedals_clutch, 0)],
       G29.Emit.all [(G29.Key.pedals_gas, 1 / 2), (G29.Key.pedals_brake, 0),
         (G29.Key.pedals_clutch, 0)],
       G29.Emit.data [0, 0, 0, 0, 0, 0, 128, 255, 255, 0, 0, 0]] := by
  exact ⟨fun b => rfl, fun data => ⟨rfl, rfl, rfl⟩, by decide, by decide⟩

/-- C4: for every pair of bytes at indices 4 and 5 (always decoded
together: both indices produce the same single `wheel-turn` pair), the
decoded turn equals the spec formula
`clamp(round((b4/255)·(100/256) + (b5/255)·(100 − 100/256), 2), 0, 100)`,
with the fine term in [0, 0.390625] and the coarse term in [0, 99.609375]. -/
theorem wheelTurn_formula (data : List ℕ)
    (h4 : data.getD 4 0 ≤ 255) (h5 : data.getD 5 0 ≤ 255) :
    G29.wheelTurn data = G29.specTurn (data.getD 4 0) (data.getD 5 0) ∧
    G29.pairsForIndex data 4 = [(G29.Key.wheel_turn, G29.wheelTurn data)] ∧
    G29.pairsForIndex data 5 = [(G29.Key.wheel_turn, G29.wheelTurn data)] ∧
    0 ≤ ((data.getD 4 0 : ℕ) : ℚ) / 255 * (100 / 256) ∧
    ((data.getD 4 0 : ℕ) : ℚ) / 255 * (100 / 256) ≤ 100 / 256 ∧
    0 ≤ ((data.getD 5 0 : ℕ) : ℚ) / 255 * (100 - 100 / 256) ∧
    ((data.getD 5 0 : ℕ) : ℚ) / 255 * (100 - 100 / 256) ≤ 100 - 100 / 256 := by
  have c4 : ((data.getD 4 0 : ℕ) : ℚ) ≤ 255 := by exact_mod_cast h4
  have c5 : ((data.getD 5 0 : ℕ) : ℚ) ≤ 255 := by exact_mod_cast h5
  have hx4 : ((data.getD 4 0 : ℕ) : ℚ) / 255 ≤ 1 := by
    rw [div_le_one (by norm_num)]; exact c4
  have hx5 : ((data.getD 5 0 : ℕ) : ℚ) / 255 ≤ 1 := by
    rw [div_le_one (by norm_num)]; exact c5
  refine ⟨rfl, rfl, rfl, by positivity, ?_, by positivity, ?_⟩
  · calc ((data.getD 4 0 : ℕ) : ℚ) / 255 * (100 / 256)
        ≤ 1 * (100 / 256) := by
          apply mul_le_mul_of_nonneg_right hx4 (by norm_num)
    _ = 100 / 256 := one_mul _
  · calc ((data.getD 5 0 : ℕ) : ℚ) / 255 * (100 - 100 / 256)
        ≤ 1 * (100 - 100 / 256) := by
          apply mul_le_mul_of_nonneg_right hx5 (by norm_num)
    _ = 100 - 100 / 256 := one_mul _

/-- Witness for C4 at the concrete report bytes b4 = 0, b5 = 128. -/
theorem wheelTurn_formula_witness :
    (([0, 0, 0, 0, 0, 128] : List ℕ).getD 4 0 ≤ 255 ∧
     ([0, 0, 0, 0, 0, 128] : List ℕ).getD 5 0 ≤ 255) ∧
    (G29.wheelTurn [0, 0, 0, 0, 0, 128] =
      G29.specTurn (([0, 0, 0, 0, 0, 128] : List ℕ).getD 4 0)
        (([0, 0, 0, 0, 0, 128] : List ℕ).getD 5 0) ∧
     G29.pairsForIndex [0, 0, 0, 0, 0, 128] 4 =
      [(G29.Key.wheel_turn, G29.wheelTurn [0, 0, 0, 0, 0, 128])] ∧
     G29.pairsForIndex [0, 0, 0, 0, 0, 128] 5 =
      [(G29.Key.wheel_turn, G29.wheelTurn [0, 0, 0, 0, 0, 128])] ∧
     0 ≤ ((([0, 0, 0, 0, 0, 128] : List ℕ).getD 4 0 : ℕ) : ℚ) / 255 * (100 / 256) ∧
     ((([0, 0, 0, 0, 0, 128] : List ℕ).getD 4 0 : ℕ) : ℚ) / 255 * (100 / 256) ≤ 100 / 256 ∧
     0 ≤ ((([0, 0, 0, 0, 0, 128] : List ℕ).getD 5 0 : ℕ) : ℚ) / 255 * (100 - 100 / 256) ∧
     ((([0, 0, 0, 0, 0, 128] : List ℕ).getD 5 0 : ℕ) : ℚ) / 255 * (100 - 100 / 256)
       ≤ 100 - 100 / 256) :=
  ⟨⟨by decide, by decide⟩, wheelTurn_formula [0, 0, 0, 0, 0, 128] (by decide) (by decide)⟩

/-- C8: the LED operation clamps its value to 0–31 and writes it verbatim
as the third byte of `[0xf8, 0x12, mask, 0x00, 0x00, 0x00, 0x01]`; a call
whose value equals the stored last value emits no frame; issuing LED mask 7
twice in a row (from any stored value other than 7) produces exactly one
outbound frame. -/
theorem leds_clamp_and_suppress (last value : ℤ) :
    (G29.leds false value value).2 = [] ∧
    (last ≠ value →
      (G29.leds false last value).2
        = [[0xf8, 0x12, min (max value 0) 31, 0x00, 0x00, 0x00, 0x01]]) ∧
    (last ≠ 7 →
      (G29.leds false last 7).2 ++ (G29.leds false (G29.leds false last 7).1 7).2
        = [[0xf8, 0x12, 7, 0x00, 0x00, 0x00, 0x01]]) := by
  refine ⟨?_, ?_, ?_⟩
  · unfold G29.leds
    rw [if_pos rfl]
  · intro h
    unfold G29.leds
    rw [if_neg h]
    rfl
  · intro h
    have h1 : G29.leds false last 7 = (7, [[0xf8, 0x12, 7, 0x00, 0x00, 0x00, 0x01]]) := by
      unfold G29.leds
      rw [if_neg h]
      have h7 : min (max (7 : ℤ) 0) 31 = 7 := by decide
      simp only [h7]
      rfl
    rw [h1]
    have h2 : (G29.leds false 7 7).2 = [] := by
      unfold G29.leds
      rw [if_pos rfl]
    rw [h2, List.append_nil]

/-- Witness for C8: from stored LED value 0, two calls with mask 7 produce
exactly one frame. -/
theorem leds_clamp_and_suppress_witness :
    (0 : ℤ) ≠ 7 ∧
    (G29.leds false 0 7).2 ++ (G29.leds false (G29.leds false 0 7).1 7).2
      = [[0xf8, 0x12, 7, 0x00, 0x00, 0x00, 0x01]] :=
  ⟨by decide, (leds_clamp_and_suppress 0 7).2.2 (by decide)⟩

set_option maxRecDepth 4000 in
/-- Low and high byte recombine to the encoded value for every value the
range clamp can produce. -/
theorem rangeBytes_recombine : ∀ v : Fin 901,
    (v.val &&& 0x00ff) + 256 * ((v.val &&& 0xff00) >>> 8) = v.val := by
  decide

/-- C9: the range command clamps the requested value to 40–900 and encodes
the frame `[0xf8, 0x81, low, high, 0, 0, 0]` with `low = clamped & 0x00ff`
and `high = (clamped & 0xff00) >> 8`, a little-endian 16-bit field
(low + 256·high recombines to the clamped value); requesting 2000 encodes
the same bytes as 900, and requesting 5 the same bytes as 40. -/
theorem range_clamp_encode (range : ℤ) :
    G29.rangeCommand range = G29.specRangeFrame range ∧
    40 ≤ G29.clampedRange range ∧ G29.clampedRange range ≤ 900 ∧
    (G29.rangeCommand range).getD 2 0 + 256 * ((G29.rangeCommand range).getD 3 0)
      = (G29.clampedRange range).toNat ∧
    G29.rangeCommand 2000 = G29.rangeCommand 900 ∧
    G29.rangeCommand 5 = G29.rangeCommand 40 := by
  have hle : G29.clampedRange range ≤ 900 := min_le_right _ _
  have hge : (40 : ℤ) ≤ G29.clampedRange range :=
    le_min (le_max_right _ _) (by norm_num)
  refine ⟨rfl, hge, hle, ?_, by decide, by decide⟩
  have hv : (G29.clampedRange range).toNat ≤ 900 := by
    rw [Int.toNat_le]
    exact_mod_cast hle
  have hrec := rangeBytes_recombine ⟨(G29.clampedRange range).toNat, by omega⟩
  simpa [G29.rangeCommand, G29.setRange, List.getD_cons_succ, List.getD_cons_zero]
    using hrec

/-! ## Field range invariants (C7) -/

/-- A default-0 read out of a list of bytes ≤ 255 is ≤ 255. -/
theorem getD_le_255 {data : List ℕ} (h : ∀ b ∈ data, b ≤ 255) (i : ℕ) :
    data.getD i 0 ≤ 255 := by
  rcases Nat.lt_or_ge i data.length with hi | hi
  · rw [List.getD_eq_getElem?_getD, List.getElem?_eq_getElem hi, Option.getD_some]
    exact h _ (List.getElem_mem hi)
  · rw [List.getD_eq_getElem?_getD, List.getElem?_eq_none hi, Option.getD_none]
    norm_num

/-- `objSet` only adds the written pair. -/
theorem mem_objSet : ∀ (st : G29.State) (k : G29.Key) (v : ℚ) (p : G29.Key × ℚ),
    p ∈ G29.objSet st k v → p ∈ st ∨ p = (k, v)
  | [], _, _, p, hp => Or.inr (by simpa [G29.objSet] using hp)
  | (k', v') :: rest, k, v, p, hp => by
    by_cases h : k' = k
    · rw [G29.objSet, if_pos h] at hp
      rcases List.mem_cons.mp hp with h1 | h1
      · exact Or.inr (by rw [h1, h])
      · exact Or.inl (List.mem_cons_of_mem _ h1)
    · rw [G29.objSet, if_neg h] at hp
      rcases List.mem_cons.mp hp with h1 | h1
      · exact Or.inl (h1 ▸ List.mem_cons_self _ _)
      · rcases mem_objSet rest k v p h1 with h2 | h2
        · exact Or.inl (List.mem_cons_of_mem _ h2)
        · exact Or.inr h2

/-- `compareState` writes only pairs from its input list, so it preserves
per-field range invariants on both the state and the changes object. -/
theorem compareState_ok : ∀ (pairs : List (G29.Key × ℚ)) (st ch : G29.State),
    (∀ p ∈ pairs, G29.fieldOK p.1 p.2) →
    (∀ p ∈ st, G29.fieldOK p.1 p.2) →
    (∀ p ∈ ch, G29.fieldOK p.1 p.2) →
    (∀ p ∈ (G29.compareState pairs st ch).1, G29.fieldOK p.1 p.2) ∧
    (∀ p ∈ (G29.compareState pairs st ch).2, G29.fieldOK p.1 p.2)
  | [], st, ch, _, hst, hch => ⟨hst, hch⟩
  | (k, v) :: rest, st, ch, hp, hst, hch => by
    have hkv : G29.fieldOK k v := hp (k, v) (List.mem_cons_self _ _)
    have hrest : ∀ p ∈ rest, G29.fieldOK p.1 p.2 :=
      fun p hm => hp p (List.mem_cons_of_mem _ hm)
    rw [G29.compareState]
    by_cases h : G29.objGet st k = some v
    · rw [if_pos h]
      exact compareState_ok rest st ch hrest hst hch
    · rw [if_neg h]
      apply compareState_ok rest _ _ hrest
      · intro p hm
        rcases mem_objSet st k v p hm with h1 | h1
        · exact hst p h1
        · rw [h1]
          exact hkv
      · intro p hm
        rcases mem_objSet ch k v p hm with h1 | h1
        · exact hch p h1
        · rw [h1]
          exact hkv

/-- The dpad lookup only produces values 0..8, whatever the input byte. -/
theorem wheelDpad_mem (v : ℕ) :
    ((G29.wheelDpad v : ℕ) : ℚ) ∈ ([0, 1, 2, 3, 4, 5, 6, 7, 8] : List ℚ) := by
  have h : G29.wheelDpad v ≤ 8 := by
    unfold G29.wheelDpad
    split <;> omega
  generalize G29.wheelDpad v = n at h ⊢
  interval_cases n <;> decide

/-- The gear lookup only produces values −1..6, whatever the input byte. -/
theorem shifterGear_mem (v : ℕ) :
    ((G29.shifterGear v : ℤ) : ℚ) ∈ ([-1, 0, 1, 2, 3, 4, 5, 6] : List ℚ) := by
  unfold G29.shifterGear
  split <;> decide

/-- The clamp in `wheelTurn` keeps the result in [0, 100]. -/
theorem wheelTurn_mem (data : List ℕ) :
    0 ≤ G29.wheelTurn data ∧ G29.wheelTurn data ≤ 100 := by
  simp only [G29.wheelTurn, G29.mathMin, G29.mathMax]
  split_ifs <;> constructor <;> linarith

set_option maxRecDepth 2000 in
/-- Pedal inversion lands in [0, 1] for every byte. -/
theorem pedalToPercent_mem : ∀ b : Fin 256,
    0 ≤ G29.pedalToPercent b.val ∧ G29.pedalToPercent b.val ≤ 1 := by
  decide

/-- A truthy bit test produces 0 or 1. -/
theorem bit_mem (v m : ℕ) : G29.bit v m ∈ ([0, 1] : List ℚ) := by
  unfold G29.bit
  split <;> decide

/-- The raw `value & 1` tests produce 0 or 1. -/
theorem and_one_mem (v : ℕ) : ((v &&& 1 : ℕ) : ℚ) ∈ ([0, 1] : List ℚ) := by
  have h : v &&& 1 ≤ 1 := Nat.and_le_right
  generalize v &&& 1 = n at h ⊢
  interval_cases n <;> decide

/-- Every pair produced for any byte index satisfies its field's range,
provided the report's bytes are in 0..255. -/
theorem pairsForIndex_ok (data : List ℕ) (hdata : ∀ b ∈ data, b ≤ 255) :
    ∀ i : ℕ, ∀ p ∈ G29.pairsForIndex data i, G29.fieldOK p.1 p.2 := by
  have hb : ∀ i, data.getD i 0 ≤ 255 := getD_le_255 hdata
  intro i
  match i with
  | 0 =>
    intro p hp
    simp only [G29.pairsForIndex, List.mem_cons, List.not_mem_nil, or_false] at hp
    rcases hp with rfl | rfl | rfl | rfl | rfl
    · exact wheelDpad_mem _
    · exact bit_mem _ _
    · exact bit_mem _ _
    · exact bit_mem _ _
    · exact bit_mem _ _
  | 1 =>
    intro p hp
    simp only [G29.pairsForIndex, List.mem_cons, List.not_mem_nil, or_false] at hp
    rcases hp with rfl | rfl | rfl | rfl | rfl | rfl | rfl | rfl
    · exact and_one_mem _
    · exact bit_mem _ _
    · exact bit_mem _ _
    · exact bit_mem _ _
    · exact bit_mem _ _
    · exact bit_mem _ _
    · exact bit_mem _ _
    · exact bit_mem _ _
  | 2 =>
    intro p hp
    simp only [G29.pairsForIndex, List.mem_cons, List.not_mem_nil, or_false] at hp
    rcases hp with rfl | rfl
    · exact shifterGear_mem _
    · exact bit_mem _ _
  | 3 =>
    intro p hp
    simp only [G29.pairsForIndex, List.mem_cons, List.not_mem_nil, or_false] at hp
    rcases hp with rfl | rfl | rfl | rfl
    · show G29.fieldOK G29.Key.wheel_spinner _
      split_ifs <;> decide
    · exact and_one_mem _
    · exact bit_mem _ _
    · exact bit_mem _ _
  | 4 =>
    intro p hp
    simp only [G29.pairsForIndex, List.mem_cons, List.not_mem_nil, or_false] at hp
    rcases hp with rfl
    exact wheelTurn_mem _
  | 5 =>
    intro p hp
    simp only [G29.pairsForIndex, List.mem_cons, List.not_mem_nil, or_false] at hp
    rcases hp with rfl
    exact wheelTurn_mem _
  | 6 =>
    intro p hp
    simp only [G29.pairsForIndex, List.mem_cons, List.not_mem_nil, or_false] at hp
    rcases hp with rfl
    exact pedalToPercent_mem ⟨data.getD 6 0, by have := hb 6; omega⟩
  | 7 =>
    intro p hp
    simp only [G29.pairsForIndex, List.mem_cons, List.not_mem_nil, or_false] at hp
    rcases hp with rfl
    exact pedalToPercent_mem ⟨data.getD 7 0, by have := hb 7; omega⟩
  | 8 =>
    intro p hp
    simp only [G29.pairsForIndex, List.mem_cons, List.not_mem_nil, or_false] at hp
    rcases hp with rfl
    exact pedalToPercent_mem ⟨data.getD 8 0, by have := hb 8; omega⟩
  | 9 =>
    intro p hp
    simp [G29.pairsForIndex] at hp
  | 10 =>
    intro p hp
    simp [G29.pairsForIndex] at hp
  | 11 =>
    intro p hp
    simp only [G29.pairsForIndex, List.mem_cons, List.not_mem_nil, or_false] at hp
    rcases hp with rfl
    exact shifterGear_mem _
  | (n + 12) =>
    intro p hp
    simp [G29.pairsForIndex] at hp

/-- C7: for every input report whose bytes lie in 0..255 and every state
whose stored fields are in range, every field stored or reported changed by
`updateState` stays in its documented range (dpad ∈ {0..8},
gear ∈ {−1..6}, turn ∈ [0,100], pedals ∈ [0,1], spinner ∈ {−1,0,1},
booleans ∈ {0,1}), for arbitrary byte values including unused high bits. -/
theorem updateState_ranges (data lastData : List ℕ) (st : G29.State)
    (hdata : ∀ b ∈ data, b ≤ 255)
    (hst : ∀ p ∈ st, G29.fieldOK p.1 p.2) :
    (∀ p ∈ (G29.updateState data lastData st).1, G29.fieldOK p.1 p.2) ∧
    (∀ p ∈ (G29.updateState data lastData st).2, G29.fieldOK p.1 p.2) := by
  have hpairs := pairsForIndex_ok data hdata
  unfold G29.updateState
  have main : ∀ (l : List ℕ) (acc : G29.State × G29.State),
      (∀ p ∈ acc.1, G29.fieldOK p.1 p.2) →
      (∀ p ∈ acc.2, G29.fieldOK p.1 p.2) →
      (∀ p ∈ (l.foldl (G29.updateStep data lastData) acc).1, G29.fieldOK p.1 p.2) ∧
      (∀ p ∈ (l.foldl (G29.updateStep data lastData) acc).2, G29.fieldOK p.1 p.2) := by
    intro l
    induction l with
    | nil => exact fun acc h1 h2 => ⟨h1, h2⟩
    | cons i rest ih =>
      intro acc h1 h2
      rw [List.foldl_cons]
      have hstep :
          (∀ p ∈ (G29.updateStep data lastData acc i).1, G29.fieldOK p.1 p.2) ∧
          (∀ p ∈ (G29.updateStep data lastData acc i).2, G29.fieldOK p.1 p.2) := by
        unfold G29.updateStep
        split
        · exact compareState_ok _ _ _ (hpairs i) h1 h2
        · exact ⟨h1, h2⟩
      exact ih _ hstep.1 hstep.2
  exact main _ (st, []) hst (by simp)

/-- Witness for C7 at the concrete end-to-end report and the fresh state. -/
theorem updateState_ranges_witness :
    ((∀ b ∈ ([0, 0, 0, 0, 0, 0, 128, 255, 255, 0, 0, 0] : List ℕ), b ≤ 255) ∧
     (∀ p ∈ ([] : G29.State), G29.fieldOK p.1 p.2)) ∧
    ((∀ p ∈ (G29.updateState [0, 0, 0, 0, 0, 0, 128, 255, 255, 0, 0, 0]
        (List.replicate 12 0) []).1, G29.fieldOK p.1 p.2) ∧
     (∀ p ∈ (G29.updateState [0, 0, 0, 0, 0, 0, 128, 255, 255, 0, 0, 0]
        (List.replicate 12 0) []).2, G29.fieldOK p.1 p.2)) :=
  ⟨⟨by decide, by simp⟩,
   updateState_ranges _ (List.replicate 12 0) [] (by decide) (by simp)⟩
